import Mathlib

/-!
Shallow embedding of `backend/pkg/owl/consumer_group_lag.go` (package `owl`)
of the kowl repository.

Modelling conventions:
* Go maps are association lists (`List (key × value)`); map indexing is
  `alookup`, map assignment is `upsert`, and `range` iteration is list
  iteration (Go's iteration order is unspecified, so any fixed
  linearization is a valid model).
* `int32` partition ids and `int64` offsets/watermarks are `Int`.
* Fallible calls return `Except String`; the Go code only ever inspects
  errors for non-nilness and otherwise propagates fixed message strings.
* The external Kafka client collaborators used by `getConsumerGroupLags`
  (`kafkaSvc.ListConsumerGroupOffsetsBulk`, `kafkaSvc.Client.Partitions`,
  `kafkaSvc.HighWaterMarks`) are parameters, gathered in a `KafkaService`
  record; logging calls are no-ops and are dropped.
-/

/-- Association-list lookup, modelling Go map indexing `m[k]` (the `v, ok` form
returns `some`/`none`). -/
def alookup {α β : Type} [DecidableEq α] (k : α) : List (α × β) → Option β
  | [] => none
  | p :: rest => if k = p.1 then some p.2 else alookup k rest

/-- Association-list insert-or-replace, modelling Go map assignment `m[k] = v`. -/
def upsert {α β : Type} [DecidableEq α] (k : α) (v : β) : List (α × β) → List (α × β)
  | [] => [(k, v)]
  | p :: rest => if k = p.1 then (k, v) :: rest else p :: upsert k v rest

/-- `type partitionOffsets map[int32]int64`: partition id to committed offset. -/
abbrev partitionOffsets := List (Int × Int)

/-- The field of `sarama.OffsetFetchResponseBlock` read by this code. -/
structure OffsetFetchResponseBlock where
  Offset : Int
  deriving DecidableEq

/-- The field of `sarama.OffsetFetchResponse` read by this code:
`Blocks map[string]map[int32]*OffsetFetchResponseBlock` (topic to partition blocks). -/
structure OffsetFetchResponse where
  Blocks : List (String × List (Int × OffsetFetchResponseBlock))
  deriving DecidableEq

/-- `PartitionLag` describes the kafka lag for a partition for a single consumer group. -/
structure PartitionLag where
  PartitionID : Int
  Lag : Int
  deriving DecidableEq

/-- `TopicLag` describes the kafka lag for a single topic and its partitions for a
single consumer group. -/
structure TopicLag where
  Topic : String
  SummedLag : Int
  PartitionCount : Nat
  PartitionsWithOffset : Nat
  PartitionLags : List PartitionLag
  deriving DecidableEq

/-- `ConsumerGroupLag` describes the kafka lag for all topics/partitions for a single
consumer group. -/
structure ConsumerGroupLag where
  GroupID : String
  TopicLags : List TopicLag
  deriving DecidableEq

/-- `GetTopicLag` returns the group's topic lag, or `none` (Go: `nil`) if the group
has no group offsets on that topic. -/
def ConsumerGroupLag.GetTopicLag (c : ConsumerGroupLag) (topicName : String) : Option TopicLag :=
  c.TopicLags.find? (fun lag => lag.Topic == topicName)

/-- `convertOffsets` returns a map where the key is the topic name. -/
def convertOffsets (offsets : OffsetFetchResponse) : List (String × partitionOffsets) :=
  offsets.Blocks.map (fun tb => (tb.1, tb.2.map (fun pb => (pb.1, pb.2.Offset))))

/-- The external Kafka client collaborators used by `getConsumerGroupLags`. -/
structure KafkaService where
  ListConsumerGroupOffsetsBulk : List String → Except String (List (String × OffsetFetchResponse))
  Partitions : String → Except String (List Int)
  HighWaterMarks : List (String × List Int) → Except String (List (String × List (Int × Int)))

/-- Step 1 of `getConsumerGroupLags`: `offsetsByGroup[group] = convertOffsets(offset)`
for each fetched group. -/
def offsetsByGroupOf (offsets : List (String × OffsetFetchResponse)) :
    List (String × List (String × partitionOffsets)) :=
  offsets.map (fun go => (go.1, convertOffsets go.2))

/-- The `topics` slice of `getConsumerGroupLags`: for every group's offset map,
append every topic key (`topics = append(topics, topic)`, no deduplication). -/
def collectTopics (offsetsByGroup : List (String × List (String × partitionOffsets))) :
    List String :=
  offsetsByGroup.foldl (fun topics go => topics ++ go.2.map Prod.fst) []

/-- The `topicPartitions` loop of `getConsumerGroupLags`: one
`kafkaSvc.Client.Partitions(topic)` call per element of `topics`, aborting with the
fixed message on any failure, otherwise `topicPartitions[topic] = partitions`. -/
def listTopicPartitions (s : KafkaService) (acc : List (String × List Int)) :
    List String → Except String (List (String × List Int))
  | [] => .ok acc
  | topic :: rest =>
    match s.Partitions topic with
    | .error _ => .error "failed to fetch partition list for calculating the group lags"
    | .ok partitions => listTopicPartitions s (upsert topic partitions acc) rest

/-- The body of the `for pID, watermark := range partitionWaterMarks` loop of
`getConsumerGroupLags`, acting on the accumulated `TopicLag`. -/
def lagStep (pOffsets : partitionOffsets) (t : TopicLag) (pw : Int × Int) : TopicLag :=
  match alookup pw.1 pOffsets with
  | none => t
  | some groupOffset =>
    let lag := pw.2 - groupOffset
    let lag := if lag < 0 then 0 else lag
    { t with
      PartitionsWithOffset := t.PartitionsWithOffset + 1
      SummedLag := t.SummedLag + lag
      PartitionLags := t.PartitionLags ++ [{ PartitionID := pw.1, Lag := lag }] }

/-- The per-(group, topic) block of `getConsumerGroupLags`: initialize `t` with
`PartitionCount = len(partitionWaterMarks)` and fold the partition loop over the
watermark map's entries. -/
def computeTopicLag (topic : String) (pOffsets : partitionOffsets)
    (partitionWaterMarks : List (Int × Int)) : TopicLag :=
  partitionWaterMarks.foldl (lagStep pOffsets)
    { Topic := topic
      SummedLag := 0
      PartitionCount := partitionWaterMarks.length
      PartitionsWithOffset := 0
      PartitionLags := [] }

/-- The `for topic, partitionOffsets := range offsetsByGroup[group]` loop of
`getConsumerGroupLags`: abort with the fixed message when `waterMarks[topic]` is
absent, otherwise append the topic's `TopicLag`. -/
def topicLagsFor (waterMarks : List (String × List (Int × Int))) :
    List (String × partitionOffsets) → Except String (List TopicLag)
  | [] => .ok []
  | tpo :: rest =>
    match alookup tpo.1 waterMarks with
    | none => .error "no partition watermark for the group's topic available"
    | some partitionWaterMarks =>
      match topicLagsFor waterMarks rest with
      | .error e => .error e
      | .ok tls => .ok (computeTopicLag tpo.1 tpo.2 partitionWaterMarks :: tls)

/-- `offsetsByGroup[group]` as iterated by the group loop: a missing key yields the
nil map, over which the topic loop does nothing. -/
def groupOffsetsIn (offsetsByGroup : List (String × List (String × partitionOffsets)))
    (group : String) : List (String × partitionOffsets) :=
  (alookup group offsetsByGroup).getD []

/-- The `for _, group := range groups` loop of `getConsumerGroupLags`:
`res[group] = &ConsumerGroupLag{GroupID: group, TopicLags: topicLags}`. -/
def buildGroupLags (waterMarks : List (String × List (Int × Int)))
    (offsetsByGroup : List (String × List (String × partitionOffsets)))
    (acc : List (String × ConsumerGroupLag)) :
    List String → Except String (List (String × ConsumerGroupLag))
  | [] => .ok acc
  | group :: rest =>
    match topicLagsFor waterMarks (groupOffsetsIn offsetsByGroup group) with
    | .error e => .error e
    | .ok topicLags =>
      buildGroupLags waterMarks offsetsByGroup
        (upsert group { GroupID := group, TopicLags := topicLags } acc) rest

/-- `getConsumerGroupLags` returns a nested map where the group id is the key. -/
def getConsumerGroupLags (s : KafkaService) (groups : List String) :
    Except String (List (String × ConsumerGroupLag)) :=
  match s.ListConsumerGroupOffsetsBulk groups with
  | .error _ => .error "failed to list consumer group offsets in bulk"
  | .ok offsets =>
    match listTopicPartitions s [] (collectTopics (offsetsByGroupOf offsets)) with
    | .error e => .error e
    | .ok topicPartitions =>
      match s.HighWaterMarks topicPartitions with
      | .error e => .error e
      | .ok waterMarks => buildGroupLags waterMarks (offsetsByGroupOf offsets) [] groups

/-- Instrumented copy of `listTopicPartitions` that additionally records, in order,
every topic passed to the `Partitions` collaborator. -/
def listTopicPartitionsCalls (s : KafkaService) (calls : List String)
    (acc : List (String × List Int)) :
    List String → List String × Except String (List (String × List Int))
  | [] => (calls, .ok acc)
  | topic :: rest =>
    match s.Partitions topic with
    | .error _ =>
      (calls ++ [topic], .error "failed to fetch partition list for calculating the group lags")
    | .ok partitions =>
      listTopicPartitionsCalls s (calls ++ [topic]) (upsert topic partitions acc) rest

/-- The sequence of topics on which `getConsumerGroupLags` invokes the
partition-listing collaborator (empty when the bulk offset fetch already failed). -/
def partitionListCalls (s : KafkaService) (groups : List String) : List String :=
  match s.ListConsumerGroupOffsetsBulk groups with
  | .error _ => []
  | .ok offsets => (listTopicPartitionsCalls s [] [] (collectTopics (offsetsByGroupOf offsets))).1

/-- The partition lags produced by the watermark-iteration loop, as a `filterMap`:
one entry per watermark partition that has a committed offset, with the clamped lag. -/
def partLagsOf (pOffsets : partitionOffsets) (pwm : List (Int × Int)) : List PartitionLag :=
  pwm.filterMap (fun pw => (alookup pw.1 pOffsets).map
    (fun o => { PartitionID := pw.1, Lag := if pw.2 - o < 0 then 0 else pw.2 - o }))

/-- Offsets of the spec's worked scenario: group `g1` committed
`{topicA: {p0: 100, p1: 50}}`. -/
def sampleOffsetsG1 : OffsetFetchResponse :=
  { Blocks := [("topicA", [(0, { Offset := 100 }), (1, { Offset := 50 })])] }

/-- Collaborators of the spec's worked scenario: watermarks
`{topicA: {p0: 120, p1: 50, p2: 30}}`. -/
def sampleSvc : KafkaService :=
  { ListConsumerGroupOffsetsBulk := fun _ => .ok [("g1", sampleOffsetsG1)]
    Partitions := fun topic => if topic = "topicA" then .ok [0, 1, 2] else .error "unknown topic"
    HighWaterMarks := fun _ => .ok [("topicA", [(0, 120), (1, 50), (2, 30)])] }

/-- The single `TopicLag` the worked scenario produces. -/
def sampleTopicLag : TopicLag :=
  { Topic := "topicA"
    SummedLag := 20
    PartitionCount := 3
    PartitionsWithOffset := 2
    PartitionLags := [{ PartitionID := 0, Lag := 20 }, { PartitionID := 1, Lag := 0 }] }

/-- The `ConsumerGroupLag` the worked scenario produces for `g1`. -/
def sampleGroupLag : ConsumerGroupLag := { GroupID := "g1", TopicLags := [sampleTopicLag] }

/-- The full result of the worked scenario. -/
def sampleRes : List (String × ConsumerGroupLag) := [("g1", sampleGroupLag)]

/-- An offset-fetch result whose only topic carries no partition blocks at all. -/
def emptyBlockOffsets : OffsetFetchResponse := { Blocks := [("t", [])] }

/-- Collaborators for the empty-partition-block edge case. -/
def svcEmptyBlocks : KafkaService :=
  { ListConsumerGroupOffsetsBulk := fun _ => .ok [("g1", emptyBlockOffsets)]
    Partitions := fun _ => .ok [0]
    HighWaterMarks := fun _ => .ok [("t", [(0, 5)])] }

/-- An offset-fetch result with one committed offset on topic `t`. -/
def topicTOffsets : OffsetFetchResponse := { Blocks := [("t", [(0, { Offset := 3 })])] }

/-- Collaborators whose bulk offset fetch fails. -/
def svcOffsetsFail : KafkaService :=
  { ListConsumerGroupOffsetsBulk := fun _ => .error "offset fetch down"
    Partitions := fun _ => .ok []
    HighWaterMarks := fun _ => .ok [] }

/-- Collaborators whose partition listing fails. -/
def svcPartitionsFail : KafkaService :=
  { ListConsumerGroupOffsetsBulk := fun _ => .ok [("g1", topicTOffsets)]
    Partitions := fun _ => .error "partition list down"
    HighWaterMarks := fun _ => .ok [] }

/-- Collaborators whose watermark fetch fails. -/
def svcWatermarksFail : KafkaService :=
  { ListConsumerGroupOffsetsBulk := fun _ => .ok [("g1", topicTOffsets)]
    Partitions := fun _ => .ok [0]
    HighWaterMarks := fun _ => .error "watermark fetch down" }

/-- Collaborators whose watermark fetch succeeds but omits the consumed topic. -/
def svcMissingWatermark : KafkaService :=
  { ListConsumerGroupOffsetsBulk := fun _ => .ok [("g1", topicTOffsets)]
    Partitions := fun _ => .ok [0]
    HighWaterMarks := fun _ => .ok [] }

/-- Collaborators with two groups holding committed offsets on the same topic. -/
def svcSharedTopic : KafkaService :=
  { ListConsumerGroupOffsetsBulk := fun _ =>
      .ok [("g1", { Blocks := [("t", [(0, { Offset := 1 })])] }),
           ("g2", { Blocks := [("t", [(0, { Offset := 2 })])] })]
    Partitions := fun _ => .ok [0]
    HighWaterMarks := fun _ => .ok [("t", [(0, 5)])] }

/-- An offset-fetch result carrying the `-1` "no offset" sentinel. -/
def sentinelOffsets : OffsetFetchResponse := { Blocks := [("t", [(0, { Offset := -1 })])] }

/-- A successful association-list lookup is backed by a list entry. -/
theorem alookup_eq_some_mem {α β : Type} [DecidableEq α] {k : α} {v : β}
    {l : List (α × β)} (h : alookup k l = some v) : (k, v) ∈ l := by
  induction l with
  | nil => simp [alookup] at h
  | cons p rest ih =>
    rw [alookup] at h
    by_cases hk : k = p.1
    · rw [if_pos hk] at h
      injection h with h
      exact List.mem_cons.2 (Or.inl (by rw [hk, ← h]))
    · rw [if_neg hk] at h
      exact List.mem_cons.2 (Or.inr (ih h))

/-- Looking up the key just upserted yields the new value. -/
theorem alookup_upsert_self {α β : Type} [DecidableEq α] (k : α) (v : β) :
    ∀ l : List (α × β), alookup k (upsert k v l) = some v
  | [] => by simp [alookup, upsert]
  | p :: rest => by
    by_cases hk : k = p.1
    · simp [upsert, alookup, hk]
    · simp only [upsert, if_neg hk, alookup]
      exact alookup_upsert_self k v rest

/-- Upserting one key leaves lookups of other keys unchanged. -/
theorem alookup_upsert_ne {α β : Type} [DecidableEq α] {k k2 : α} (v : β) (hne : k ≠ k2) :
    ∀ l : List (α × β), alookup k (upsert k2 v l) = alookup k l
  | [] => by simp [alookup, upsert, hne]
  | p :: rest => by
    by_cases hk : k2 = p.1
    · subst hk
      simp [upsert, alookup, hne]
    · simp only [upsert, if_neg hk, alookup]
      by_cases hk2 : k = p.1
      · simp [hk2]
      · rw [if_neg hk2, if_neg hk2]
        exact alookup_upsert_ne v hne rest

/-- Every entry of an upserted list is the new pair or an old entry. -/
theorem mem_upsert_elim {α β : Type} [DecidableEq α] {k : α} {v : β} {p : α × β} :
    ∀ {l : List (α × β)}, p ∈ upsert k v l → p = (k, v) ∨ p ∈ l
  | [], h => by simpa [upsert] using h
  | q :: rest, h => by
    by_cases hk : k = q.1
    · rw [upsert, if_pos hk] at h
      rcases List.mem_cons.1 h with h | h
      · exact Or.inl h
      · exact Or.inr (List.mem_cons_of_mem _ h)
    · rw [upsert, if_neg hk] at h
      rcases List.mem_cons.1 h with h | h
      · exact Or.inr (by rw [h]; exact List.mem_cons_self _ _)
      · rcases mem_upsert_elim h with h | h
        · exact Or.inl h
        · exact Or.inr (List.mem_cons_of_mem _ h)

/-- Every key of an upserted list is the new key or an old key. -/
theorem mem_map_fst_upsert {α β : Type} [DecidableEq α] {k x : α} {v : β} :
    ∀ {l : List (α × β)}, x ∈ (upsert k v l).map Prod.fst → x = k ∨ x ∈ l.map Prod.fst := by
  intro l h
  rcases List.mem_map.1 h with ⟨p, hp, hx⟩
  rcases mem_upsert_elim hp with h1 | h1
  · subst h1
    exact Or.inl hx.symm
  · exact Or.inr (by rw [← hx]; exact List.mem_map_of_mem Prod.fst h1)

/-- Upserting preserves duplicate-freedom of the key list (the Go-map invariant). -/
theorem upsert_keys_nodup {α β : Type} [DecidableEq α] (k : α) (v : β) :
    ∀ {l : List (α × β)}, (l.map Prod.fst).Nodup → ((upsert k v l).map Prod.fst).Nodup
  | [], _ => by simp [upsert]
  | p :: rest, h => by
    rw [List.map_cons, List.nodup_cons] at h
    by_cases hk : k = p.1
    · subst hk
      rw [upsert, if_pos rfl, List.map_cons, List.nodup_cons]
      exact h
    · rw [upsert, if_neg hk, List.map_cons, List.nodup_cons]
      refine ⟨fun hmem => ?_, upsert_keys_nodup k v h.2⟩
      rcases mem_map_fst_upsert hmem with h1 | h1
      · exact hk h1.symm
      · exact h.1 h1

/-- In a list with duplicate-free keys, one key determines its value. -/
theorem nodup_keys_mem_eq {α β : Type} {k : α} {v1 v2 : β} {l : List (α × β)}
    (hnd : (l.map Prod.fst).Nodup) (h1 : (k, v1) ∈ l) (h2 : (k, v2) ∈ l) : v1 = v2 := by
  induction l with
  | nil => simp at h1
  | cons p rest ih =>
    rw [List.map_cons, List.nodup_cons] at hnd
    rcases List.mem_cons.1 h1 with h1 | h1 <;> rcases List.mem_cons.1 h2 with h2 | h2
    · exact congrArg Prod.snd (h1.trans h2.symm)
    · have hk : p.1 = k := by rw [← h1]
      exact absurd (List.mem_map_of_mem Prod.fst h2) (hk ▸ hnd.1)
    · have hk : p.1 = k := by rw [← h2]
      exact absurd (List.mem_map_of_mem Prod.fst h1) (hk ▸ hnd.1)
    · exact ih hnd.2 h1 h2

/-- The watermark-partition loop, folded from an arbitrary accumulator: the topic and
partition count are untouched, while the summed lag, the offset counter and the
partition-lag list grow by the loop's `partLagsOf` contribution. -/
theorem foldl_lagStep_eq (pOffsets : partitionOffsets) :
    ∀ (pwm : List (Int × Int)) (t : TopicLag),
      pwm.foldl (lagStep pOffsets) t =
        { Topic := t.Topic
          SummedLag := t.SummedLag + ((partLagsOf pOffsets pwm).map PartitionLag.Lag).sum
          PartitionCount := t.PartitionCount
          PartitionsWithOffset := t.PartitionsWithOffset + (partLagsOf pOffsets pwm).length
          PartitionLags := t.PartitionLags ++ partLagsOf pOffsets pwm }
  | [], t => by simp [partLagsOf]
  | pw :: rest, t => by
    rw [List.foldl_cons, foldl_lagStep_eq pOffsets rest (lagStep pOffsets t pw)]
    cases h : alookup pw.1 pOffsets with
    | none => simp [lagStep, h, partLagsOf, List.filterMap_cons]
    | some o =>
      simp only [lagStep, h, partLagsOf, List.filterMap_cons, Option.map_some]
      simp [add_assoc, List.append_assoc, add_comm, add_left_comm]

/-- `computeTopicLag`, field by field, in terms of `partLagsOf`. -/
theorem computeTopicLag_eq (topic : String) (pOffsets : partitionOffsets)
    (pwm : List (Int × Int)) :
    computeTopicLag topic pOffsets pwm =
      { Topic := topic
        SummedLag := ((partLagsOf pOffsets pwm).map PartitionLag.Lag).sum
        PartitionCount := pwm.length
        PartitionsWithOffset := (partLagsOf pOffsets pwm).length
        PartitionLags := partLagsOf pOffsets pwm } := by
  rw [computeTopicLag, foldl_lagStep_eq]
  simp

/-- A watermarked partition with a committed offset contributes its clamped lag. -/
theorem mem_partLagsOf {pO : partitionOffsets} {pwm : List (Int × Int)} {p w o : Int}
    (hw : (p, w) ∈ pwm) (ho : alookup p pO = some o) :
    ({ PartitionID := p, Lag := if w - o < 0 then 0 else w - o } : PartitionLag) ∈
      partLagsOf pO pwm := by
  rw [partLagsOf]
  exact List.mem_filterMap.2 ⟨(p, w), hw, by simp [ho]⟩

/-- Every produced partition lag is nonnegative (the clamp runs last). -/
theorem partLagsOf_lag_nonneg {pO : partitionOffsets} {pwm : List (Int × Int)}
    {pl : PartitionLag} (h : pl ∈ partLagsOf pO pwm) : 0 ≤ pl.Lag := by
  rw [partLagsOf] at h
  rcases List.mem_filterMap.1 h with ⟨pw, _, hf⟩
  cases ho : alookup pw.1 pO with
  | none => rw [ho] at hf; simp at hf
  | some o =>
    rw [ho] at hf
    simp only [Option.map_some', Option.some.injEq] at hf
    rw [← hf]
    show 0 ≤ if pw.2 - o < 0 then 0 else pw.2 - o
    split <;> omega

/-- With duplicate-free watermark keys, the partition lag entry of a partition is
determined by its watermark and committed offset. -/
theorem partLagsOf_lag_unique {pO : partitionOffsets} {pwm : List (Int × Int)} {p w o : Int}
    (hnd : (pwm.map Prod.fst).Nodup) (hw : (p, w) ∈ pwm) (ho : alookup p pO = some o)
    {pl : PartitionLag} (hpl : pl ∈ partLagsOf pO pwm) (hid : pl.PartitionID = p) :
    pl.Lag = if w - o < 0 then 0 else w - o := by
  rw [partLagsOf] at hpl
  rcases List.mem_filterMap.1 hpl with ⟨pw, hmem, hf⟩
  cases ho2 : alookup pw.1 pO with
  | none => rw [ho2] at hf; simp at hf
  | some o2 =>
    rw [ho2] at hf
    simp only [Option.map_some', Option.some.injEq] at hf
    have hid2 : pw.1 = p := by rw [← hf] at hid; exact hid
    have hw2 : pw.2 = w := nodup_keys_mem_eq hnd (by rw [← hid2]; exact hmem) hw
    have ho3 : o2 = o := by
      rw [hid2] at ho2
      injection ho2.symm.trans ho
    rw [← hf]
    simp only [hw2, ho3]

/-- The per-group topic loop fails exactly when some topic of the group's offset map
has no watermark entry, and then with the fixed message. -/
theorem topicLagsFor_error_iff (wm : List (String × List (Int × Int))) :
    ∀ (tos : List (String × partitionOffsets)) (e : String),
      topicLagsFor wm tos = .error e ↔
        (e = "no partition watermark for the group's topic available" ∧
          ∃ tpo ∈ tos, alookup tpo.1 wm = none)
  | [], e => by simp [topicLagsFor]
  | tpo :: rest, e => by
    rw [topicLagsFor]
    cases h : alookup tpo.1 wm with
    | none =>
      constructor
      · intro he
        injection he with he
        exact ⟨he.symm, tpo, List.mem_cons_self _ _, h⟩
      · intro he
        rw [he.1]
    | some pwm =>
      cases h2 : topicLagsFor wm rest with
      | error e2 =>
        have hih := (topicLagsFor_error_iff wm rest e2).1 h2
        constructor
        · intro he
          injection he with he
          refine ⟨he ▸ hih.1, ?_⟩
          rcases hih.2 with ⟨tpo2, h3, h4⟩
          exact ⟨tpo2, List.mem_cons_of_mem _ h3, h4⟩
        · intro he
          rw [he.1, hih.1]
      | ok tls =>
        constructor
        · intro he
          exact Except.noConfusion he
        · intro he
          rcases he.2 with ⟨tpo2, hmem, hl⟩
          rcases List.mem_cons.1 hmem with h3 | h3
          · rw [h3, h] at hl
            exact Option.noConfusion hl
          · have h4 := (topicLagsFor_error_iff wm rest
              "no partition watermark for the group's topic available").2 ⟨rfl, tpo2, h3, hl⟩
            rw [h4] at h2
            exact Except.noConfusion h2

/-- Every topic lag produced by the per-group topic loop is `computeTopicLag` of an
entry of the group's offset map and its watermark map. -/
theorem topicLagsFor_ok_mem (wm : List (String × List (Int × Int))) :
    ∀ {tos : List (String × partitionOffsets)} {tls : List TopicLag},
      topicLagsFor wm tos = .ok tls → ∀ tl ∈ tls,
        ∃ tpo ∈ tos, ∃ pwm, alookup tpo.1 wm = some pwm ∧
          tl = computeTopicLag tpo.1 tpo.2 pwm
  | [], tls, h => by
    rw [topicLagsFor] at h
    injection h with h
    rw [← h]
    intro tl htl
    exact absurd htl (List.not_mem_nil tl)
  | tpo :: rest, tls, h => by
    rw [topicLagsFor] at h
    cases h1 : alookup tpo.1 wm with
    | none => rw [h1] at h; exact Except.noConfusion h
    | some pwm =>
      rw [h1] at h
      cases h2 : topicLagsFor wm rest with
      | error e => rw [h2] at h; exact Except.noConfusion h
      | ok tls2 =>
        rw [h2] at h
        injection h with h
        rw [← h]
        intro tl htl
        rcases List.mem_cons.1 htl with h3 | h3
        · exact ⟨tpo, List.mem_cons_self _ _, pwm, h1, h3⟩
        · rcases topicLagsFor_ok_mem wm h2 tl h3 with ⟨tpo2, h4, pwm2, h5, h6⟩
          exact ⟨tpo2, List.mem_cons_of_mem _ h4, pwm2, h5, h6⟩

/-- Conversely, every entry of the group's offset map contributes its topic lag to a
successful per-group topic loop. -/
theorem topicLagsFor_ok_complete (wm : List (String × List (Int × Int)))
    {tos : List (String × partitionOffsets)} {tls : List TopicLag}
    (h : topicLagsFor wm tos = .ok tls)
    {t : String} {po : partitionOffsets} {pwm : List (Int × Int)}
    (hmem : (t, po) ∈ tos) (hpwm : alookup t wm = some pwm) :
    computeTopicLag t po pwm ∈ tls := by
  induction tos generalizing tls with
  | nil => exact absurd hmem (List.not_mem_nil _)
  | cons tpo rest ih =>
    rw [topicLagsFor] at h
    cases h1 : alookup tpo.1 wm with
    | none => rw [h1] at h; exact Except.noConfusion h
    | some pwm2 =>
      rw [h1] at h
      cases h2 : topicLagsFor wm rest with
      | error e => rw [h2] at h; exact Except.noConfusion h
      | ok tls2 =>
        rw [h2] at h
        injection h with h
        rw [← h]
        rcases List.mem_cons.1 hmem with h3 | h3
        · have ht : tpo.1 = t := by rw [← h3]
          have hpo : tpo.2 = po := by rw [← h3]
          have hp2 : pwm2 = pwm := by
            rw [ht] at h1
            injection h1.symm.trans hpwm
          rw [ht, hpo, hp2]
          exact List.mem_cons_self _ _
        · exact List.mem_cons_of_mem _ (ih h2 h3)

/-- If listing partitions fails for any topic of the list, the whole topic-partition
loop fails with the fixed message. -/
theorem listTopicPartitions_error_of_fail (s : KafkaService) :
    ∀ (acc : List (String × List Int)) {topics : List String} {topic e : String},
      topic ∈ topics → s.Partitions topic = .error e →
      listTopicPartitions s acc topics =
        .error "failed to fetch partition list for calculating the group lags" := by
  intro acc topics
  induction topics generalizing acc with
  | nil => intro topic e hmem _; exact absurd hmem (List.not_mem_nil _)
  | cons t rest ih =>
    intro topic e hmem herr
    rw [listTopicPartitions]
    cases h1 : s.Partitions t with
    | error e2 => rfl
    | ok ps =>
      rcases List.mem_cons.1 hmem with h2 | h2
      · rw [h2] at herr
        rw [herr] at h1
        exact Except.noConfusion h1
      · exact ih _ h2 herr

/-- A successful topic-partition loop keys each topic at most once. -/
theorem listTopicPartitions_keys_nodup (s : KafkaService) :
    ∀ {acc : List (String × List Int)} {topics : List String} {tp : List (String × List Int)},
      (acc.map Prod.fst).Nodup → listTopicPartitions s acc topics = .ok tp →
      (tp.map Prod.fst).Nodup := by
  intro acc topics
  induction topics generalizing acc with
  | nil =>
    intro tp hacc h
    rw [listTopicPartitions] at h
    injection h with h
    rw [← h]
    exact hacc
  | cons t rest ih =>
    intro tp hacc h
    rw [listTopicPartitions] at h
    cases h1 : s.Partitions t with
    | error e => rw [h1] at h; exact Except.noConfusion h
    | ok ps =>
      rw [h1] at h
      exact ih (upsert_keys_nodup t ps hacc) h

/-- The instrumented loop computes the same result as the plain one. -/
theorem listTopicPartitionsCalls_snd (s : KafkaService) :
    ∀ (calls : List String) (acc : List (String × List Int)) (topics : List String),
      (listTopicPartitionsCalls s calls acc topics).2 = listTopicPartitions s acc topics := by
  intro calls acc topics
  induction topics generalizing calls acc with
  | nil => rfl
  | cons t rest ih =>
    rw [listTopicPartitionsCalls, listTopicPartitions]
    cases h1 : s.Partitions t with
    | error e => rfl
    | ok ps => exact ih _ _

/-- On a successful run the instrumented loop invokes `Partitions` once per topic of
the list, in order. -/
theorem listTopicPartitionsCalls_fst_ok (s : KafkaService) :
    ∀ (calls : List String) (acc : List (String × List Int)) {topics : List String}
      {tp : List (String × List Int)},
      (listTopicPartitionsCalls s calls acc topics).2 = .ok tp →
      (listTopicPartitionsCalls s calls acc topics).1 = calls ++ topics := by
  intro calls acc topics
  induction topics generalizing calls acc with
  | nil =>
    intro tp _
    simp [listTopicPartitionsCalls]
  | cons t rest ih =>
    intro tp h
    rw [listTopicPartitionsCalls] at h ⊢
    cases h1 : s.Partitions t with
    | error e =>
      rw [h1] at h
      exact Except.noConfusion h
    | ok ps =>
      rw [h1] at h
      rw [ih _ _ h, List.append_assoc, List.singleton_append]

/-- The group loop fails exactly when some requested group has a topic with committed
offsets but no watermark entry, and then with the fixed message. -/
theorem buildGroupLags_error_iff (wm : List (String × List (Int × Int)))
    (obg : List (String × List (String × partitionOffsets))) :
    ∀ (acc : List (String × ConsumerGroupLag)) (gs : List String) (e : String),
      buildGroupLags wm obg acc gs = .error e ↔
        (e = "no partition watermark for the group's topic available" ∧
          ∃ g ∈ gs, ∃ tpo ∈ groupOffsetsIn obg g, alookup tpo.1 wm = none) := by
  intro acc gs
  induction gs generalizing acc with
  | nil => intro e; simp [buildGroupLags]
  | cons g rest ih =>
    intro e
    rw [buildGroupLags]
    cases h1 : topicLagsFor wm (groupOffsetsIn obg g) with
    | error e2 =>
      have hih := (topicLagsFor_error_iff wm (groupOffsetsIn obg g) e2).1 h1
      constructor
      · intro he
        injection he with he
        refine ⟨he ▸ hih.1, ?_⟩
        rcases hih.2 with ⟨tpo, h2, h3⟩
        exact ⟨g, List.mem_cons_self _ _, tpo, h2, h3⟩
      · intro he
        rw [he.1, hih.1]
    | ok tls =>
      constructor
      · intro he
        rcases (ih _ e).1 he with ⟨he2, g2, h2, h3⟩
        exact ⟨he2, g2, List.mem_cons_of_mem _ h2, h3⟩
      · intro he
        rcases he.2 with ⟨g2, hmem, tpo, h2, h3⟩
        rcases List.mem_cons.1 hmem with h4 | h4
        · have h5 := (topicLagsFor_error_iff wm (groupOffsetsIn obg g)
            "no partition watermark for the group's topic available").2
            ⟨rfl, tpo, h4 ▸ h2, h3⟩
          rw [h5] at h1
          exact Except.noConfusion h1
        · exact (ih _ e).2 ⟨he.1, g2, h4, tpo, h2, h3⟩

/-- Groups not iterated by the group loop keep their accumulator lookup. -/
theorem buildGroupLags_lookup_notmem (wm : List (String × List (Int × Int)))
    (obg : List (String × List (String × partitionOffsets))) :
    ∀ {acc : List (String × ConsumerGroupLag)} {gs : List String}
      {res : List (String × ConsumerGroupLag)} {k : String},
      buildGroupLags wm obg acc gs = .ok res → k ∉ gs → alookup k res = alookup k acc := by
  intro acc gs
  induction gs generalizing acc with
  | nil =>
    intro res k h _
    rw [buildGroupLags] at h
    injection h with h
    rw [h]
  | cons g rest ih =>
    intro res k h hk
    rw [buildGroupLags] at h
    cases h1 : topicLagsFor wm (groupOffsetsIn obg g) with
    | error e => rw [h1] at h; exact Except.noConfusion h
    | ok tls =>
      rw [h1] at h
      have hk1 : k ≠ g := fun he => hk (he ▸ List.mem_cons_self _ _)
      have hk2 : k ∉ rest := fun he => hk (List.mem_cons_of_mem _ he)
      rw [ih h hk2, alookup_upsert_ne _ hk1]

/-- Every group requested from the group loop ends up in the result, keyed by its id,
with the topic lags its offset map determines. -/
theorem buildGroupLags_lookup_mem (wm : List (String × List (Int × Int)))
    (obg : List (String × List (String × partitionOffsets))) :
    ∀ {acc : List (String × ConsumerGroupLag)} {gs : List String}
      {res : List (String × ConsumerGroupLag)} {g : String},
      buildGroupLags wm obg acc gs = .ok res → g ∈ gs →
      ∃ tls, topicLagsFor wm (groupOffsetsIn obg g) = .ok tls ∧
        alookup g res = some { GroupID := g, TopicLags := tls } := by
  intro acc gs
  induction gs generalizing acc with
  | nil => intro res g _ hg; exact absurd hg (List.not_mem_nil _)
  | cons g2 rest ih =>
    intro res g h hg
    rw [buildGroupLags] at h
    cases h1 : topicLagsFor wm (groupOffsetsIn obg g2) with
    | error e => rw [h1] at h; exact Except.noConfusion h
    | ok tls2 =>
      rw [h1] at h
      by_cases hr : g ∈ rest
      · exact ih h hr
      · have hg2 : g = g2 := by
          rcases List.mem_cons.1 hg with h2 | h2
          · exact h2
          · exact absurd h2 hr
        subst hg2
        exact ⟨tls2, h1, by rw [buildGroupLags_lookup_notmem wm obg h hr,
          alookup_upsert_self]⟩

/-- Every entry of a successful group-loop result is an accumulator entry or a
`ConsumerGroupLag` built by the loop for its own group id. -/
theorem buildGroupLags_mem (wm : List (String × List (Int × Int)))
    (obg : List (String × List (String × partitionOffsets))) :
    ∀ {acc : List (String × ConsumerGroupLag)} {gs : List String}
      {res : List (String × ConsumerGroupLag)} {p : String × ConsumerGroupLag},
      buildGroupLags wm obg acc gs = .ok res → p ∈ res →
      p ∈ acc ∨ ∃ g tls, p = (g, { GroupID := g, TopicLags := tls }) ∧
        topicLagsFor wm (groupOffsetsIn obg g) = .ok tls := by
  intro acc gs
  induction gs generalizing acc with
  | nil =>
    intro res p h hp
    rw [buildGroupLags] at h
    injection h with h
    rw [← h] at hp
    exact Or.inl hp
  | cons g rest ih =>
    intro res p h hp
    rw [buildGroupLags] at h
    cases h1 : topicLagsFor wm (groupOffsetsIn obg g) with
    | error e => rw [h1] at h; exact Except.noConfusion h
    | ok tls =>
      rw [h1] at h
      rcases ih h hp with h2 | h2
      · rcases mem_upsert_elim h2 with h3 | h3
        · exact Or.inr ⟨g, tls, h3, h1⟩
        · exact Or.inl h3
      · exact Or.inr h2

/-- A successful `getConsumerGroupLags` run decomposes into its three successful
fetches and a successful group loop. -/
theorem getConsumerGroupLags_ok_elim {s : KafkaService} {groups : List String}
    {res : List (String × ConsumerGroupLag)}
    (h : getConsumerGroupLags s groups = .ok res) :
    ∃ offsets tp wm,
      s.ListConsumerGroupOffsetsBulk groups = .ok offsets ∧
      listTopicPartitions s [] (collectTopics (offsetsByGroupOf offsets)) = .ok tp ∧
      s.HighWaterMarks tp = .ok wm ∧
      buildGroupLags wm (offsetsByGroupOf offsets) [] groups = .ok res := by
  rw [getConsumerGroupLags] at h
  split at h
  · exact Except.noConfusion h
  · rename_i offsets h1
    split at h
    · exact Except.noConfusion h
    · rename_i tp h2
      split at h
      · exact Except.noConfusion h
      · rename_i wm h3
        exact ⟨offsets, tp, wm, h1, h2, h3, h⟩

/-- Every `TopicLag` of a successful run is `computeTopicLag` applied to an entry of
its group's offset map and that topic's watermark map. -/
theorem result_topicLag_provenance {s : KafkaService} {groups : List String}
    {res : List (String × ConsumerGroupLag)}
    (h : getConsumerGroupLags s groups = .ok res)
    {g : String} {cgl : ConsumerGroupLag} (hm : (g, cgl) ∈ res)
    {tl : TopicLag} (ht : tl ∈ cgl.TopicLags) :
    ∃ offsets wm tpo pwm,
      s.ListConsumerGroupOffsetsBulk groups = .ok offsets ∧
      (∃ tp, listTopicPartitions s [] (collectTopics (offsetsByGroupOf offsets)) = .ok tp ∧
        s.HighWaterMarks tp = .ok wm) ∧
      tpo ∈ groupOffsetsIn (offsetsByGroupOf offsets) g ∧
      alookup tpo.1 wm = some pwm ∧
      tl = computeTopicLag tpo.1 tpo.2 pwm := by
  rcases getConsumerGroupLags_ok_elim h with ⟨offsets, tp, wm, h1, h2, h3, h4⟩
  rcases buildGroupLags_mem wm (offsetsByGroupOf offsets) h4 hm with h5 | h5
  · exact absurd h5 (List.not_mem_nil _)
  · rcases h5 with ⟨g2, tls, h6, h7⟩
    have hg : g2 = g := (congrArg Prod.fst h6).symm
    subst hg
    have hcgl : cgl = { GroupID := g2, TopicLags := tls } := congrArg Prod.snd h6
    rw [hcgl] at ht
    rcases topicLagsFor_ok_mem wm h7 tl ht with ⟨tpo, h8, pwm, h9, h10⟩
    exact ⟨offsets, wm, tpo, pwm, h1, ⟨tp, h2, h3⟩, h8, h9, h10⟩

/-- Claim C1: for committed offsets `{topicA: {p0: 100, p1: 50}}` and watermarks
`{topicA: {p0: 120, p1: 50, p2: 30}}`, the lag computation returns for `g1` exactly
one `TopicLag` with topic `topicA`, `PartitionCount 3`, `PartitionsWithOffset 2`,
`SummedLag 20`, and partition lags `{0, 20}` and `{1, 0}`; partition 2, having no
committed offset, is excluded. -/
theorem c1_scenario :
    getConsumerGroupLags sampleSvc ["g1"] =
      .ok [("g1",
        { GroupID := "g1"
          TopicLags := [{ Topic := "topicA"
                          SummedLag := 20
                          PartitionCount := 3
                          PartitionsWithOffset := 2
                          PartitionLags := [{ PartitionID := 0, Lag := 20 },
                                            { PartitionID := 1, Lag := 0 }] }] })] := by
  rfl

/-- Claim C2: for every partition that has both a watermark `w` in the watermark index
and a committed offset `o` in the group's offset map, the reported lag equals `w - o`
when `w ≥ o` and exactly 0 when `w < o` (the stale-watermark case is clamped, never
negative, and the partition is still included in the partition lags). -/
theorem c2_partition_lag_clamped {s : KafkaService} {groups : List String}
    {res : List (String × ConsumerGroupLag)}
    (h : getConsumerGroupLags s groups = .ok res)
    {g : String} {cgl : ConsumerGroupLag} (hm : (g, cgl) ∈ res)
    {offsets : List (String × OffsetFetchResponse)}
    (hoff : s.ListConsumerGroupOffsetsBulk groups = .ok offsets)
    {t : String} {po : partitionOffsets}
    (hpo : (t, po) ∈ groupOffsetsIn (offsetsByGroupOf offsets) g)
    {tp : List (String × List Int)} {wm : List (String × List (Int × Int))}
    (htp : listTopicPartitions s [] (collectTopics (offsetsByGroupOf offsets)) = .ok tp)
    (hwm : s.HighWaterMarks tp = .ok wm)
    {pwm : List (Int × Int)} (hpwm : alookup t wm = some pwm)
    (hnd : (pwm.map Prod.fst).Nodup)
    {p w o : Int} (hw : (p, w) ∈ pwm) (ho : alookup p po = some o) :
    ∃ tl ∈ cgl.TopicLags,
      ({ PartitionID := p, Lag := if w < o then 0 else w - o } : PartitionLag) ∈
          tl.PartitionLags ∧
        ∀ pl ∈ tl.PartitionLags, pl.PartitionID = p →
          pl.Lag = if w < o then 0 else w - o := by
  rcases getConsumerGroupLags_ok_elim h with ⟨offsets2, tp2, wm2, h1, h2, h3, h4⟩
  have he1 : offsets = offsets2 := by injection hoff.symm.trans h1
  subst he1
  have he2 : tp = tp2 := by injection htp.symm.trans h2
  subst he2
  have he3 : wm = wm2 := by injection hwm.symm.trans h3
  subst he3
  rcases buildGroupLags_mem wm (offsetsByGroupOf offsets) h4 hm with h5 | h5
  · exact absurd h5 (List.not_mem_nil _)
  rcases h5 with ⟨g2, tls, h6, h7⟩
  have hg : g2 = g := (congrArg Prod.fst h6).symm
  subst hg
  have hcgl : cgl = { GroupID := g2, TopicLags := tls } := congrArg Prod.snd h6
  have hctl := topicLagsFor_ok_complete wm h7 hpo hpwm
  have hiff : (if w - o < 0 then (0 : Int) else w - o) = if w < o then 0 else w - o := by
    simp only [sub_neg]
  refine ⟨computeTopicLag t po pwm, by rw [hcgl]; exact hctl, ?_, ?_⟩
  · rw [computeTopicLag_eq]
    have hmem := mem_partLagsOf hw ho
    rw [hiff] at hmem
    exact hmem
  · intro pl hpl hid
    rw [computeTopicLag_eq] at hpl
    have hval := partLagsOf_lag_unique hnd hw ho hpl hid
    rw [hval]
    exact hiff

/-- Witness for claim C2 at the worked scenario: partition 0 of `topicA` with
watermark 120 and offset 100 is reported with lag 20. -/
theorem c2_witness :
    ∃ tl ∈ sampleGroupLag.TopicLags,
      ({ PartitionID := 0, Lag := if (120 : Int) < 100 then 0 else 120 - 100 } :
          PartitionLag) ∈ tl.PartitionLags ∧
        ∀ pl ∈ tl.PartitionLags, pl.PartitionID = 0 →
          pl.Lag = if (120 : Int) < 100 then 0 else 120 - 100 :=
  @c2_partition_lag_clamped sampleSvc ["g1"] sampleRes rfl "g1" sampleGroupLag (by decide)
    [("g1", sampleOffsetsG1)] rfl "topicA" [(0, 100), (1, 50)] (by decide)
    [("topicA", [0, 1, 2])] [("topicA", [(0, 120), (1, 50), (2, 30)])] rfl rfl
    [(0, 120), (1, 50), (2, 30)] rfl (by decide) 0 120 100 (by decide) rfl

/-- Claim C3: the whole multi-group lag computation fails with a single error and
returns no report when: the bulk offset fetch fails; partition listing fails for any
consumed topic; the watermark fetch fails; or (exactly when) some requested group has
committed offsets for a topic absent from the watermark index. -/
theorem c3_fail_fast (s : KafkaService) (groups : List String) :
    ((∃ e, s.ListConsumerGroupOffsetsBulk groups = .error e) →
      getConsumerGroupLags s groups =
        .error "failed to list consumer group offsets in bulk") ∧
    (∀ offsets, s.ListConsumerGroupOffsetsBulk groups = .ok offsets →
      (∃ topic ∈ collectTopics (offsetsByGroupOf offsets),
        ∃ e, s.Partitions topic = .error e) →
      getConsumerGroupLags s groups =
        .error "failed to fetch partition list for calculating the group lags") ∧
    (∀ offsets tp e, s.ListConsumerGroupOffsetsBulk groups = .ok offsets →
      listTopicPartitions s [] (collectTopics (offsetsByGroupOf offsets)) = .ok tp →
      s.HighWaterMarks tp = .error e →
      getConsumerGroupLags s groups = .error e) ∧
    (∀ offsets tp wm, s.ListConsumerGroupOffsetsBulk groups = .ok offsets →
      listTopicPartitions s [] (collectTopics (offsetsByGroupOf offsets)) = .ok tp →
      s.HighWaterMarks tp = .ok wm →
      (getConsumerGroupLags s groups =
          .error "no partition watermark for the group's topic available" ↔
        ∃ g ∈ groups, ∃ tpo ∈ groupOffsetsIn (offsetsByGroupOf offsets) g,
          alookup tpo.1 wm = none)) := by
  refine ⟨?_, ?_, ?_, ?_⟩
  · rintro ⟨e, he⟩
    simp only [getConsumerGroupLags, he]
  · rintro offsets hoff ⟨topic, hmem, e, he⟩
    simp only [getConsumerGroupLags, hoff,
      listTopicPartitions_error_of_fail s [] hmem he]
  · intro offsets tp e hoff htp he
    simp only [getConsumerGroupLags, hoff, htp, he]
  · intro offsets tp wm hoff htp hwm
    simp only [getConsumerGroupLags, hoff, htp, hwm]
    constructor
    · intro he
      exact ((buildGroupLags_error_iff wm (offsetsByGroupOf offsets) [] groups _).1 he).2
    · intro he
      exact (buildGroupLags_error_iff wm (offsetsByGroupOf offsets) [] groups _).2 ⟨rfl, he⟩

/-- Witness for claim C3: each of the four failure modes at a concrete service. -/
theorem c3_witness :
    getConsumerGroupLags svcOffsetsFail ["g1"] =
      .error "failed to list consumer group offsets in bulk" ∧
    getConsumerGroupLags svcPartitionsFail ["g1"] =
      .error "failed to fetch partition list for calculating the group lags" ∧
    getConsumerGroupLags svcWatermarksFail ["g1"] = .error "watermark fetch down" ∧
    getConsumerGroupLags svcMissingWatermark ["g1"] =
      .error "no partition watermark for the group's topic available" :=
  ⟨(c3_fail_fast svcOffsetsFail ["g1"]).1 ⟨"offset fetch down", rfl⟩,
   (c3_fail_fast svcPartitionsFail ["g1"]).2.1 [("g1", topicTOffsets)] rfl
     ⟨"t", by decide, "partition list down", rfl⟩,
   (c3_fail_fast svcWatermarksFail ["g1"]).2.2.1 [("g1", topicTOffsets)] [("t", [0])]
     "watermark fetch down" rfl rfl rfl,
   ((c3_fail_fast svcMissingWatermark ["g1"]).2.2.2 [("g1", topicTOffsets)] [("t", [0])]
     [] rfl rfl rfl).2 ⟨"g1", by decide, ("t", [(0, 3)]), by decide, rfl⟩⟩

/-- Claim C4: for every `TopicLag` produced by the lag computation, `SummedLag`
equals the sum of the `Lag` fields over its `PartitionLags` list. -/
theorem c4_summedLag_eq_sum {s : KafkaService} {groups : List String}
    {res : List (String × ConsumerGroupLag)}
    (h : getConsumerGroupLags s groups = .ok res)
    {g : String} {cgl : ConsumerGroupLag} (hm : (g, cgl) ∈ res)
    {tl : TopicLag} (ht : tl ∈ cgl.TopicLags) :
    tl.SummedLag = (tl.PartitionLags.map PartitionLag.Lag).sum := by
  rcases result_topicLag_provenance h hm ht with ⟨_, _, tpo, pwm, _, _, _, _, htl⟩
  rw [htl, computeTopicLag_eq]

/-- Witness for claim C4 at the worked scenario: `20 = 20 + 0`. -/
theorem c4_witness :
    sampleTopicLag.SummedLag = (sampleTopicLag.PartitionLags.map PartitionLag.Lag).sum :=
  @c4_summedLag_eq_sum sampleSvc ["g1"] sampleRes rfl "g1" sampleGroupLag (by decide)
    sampleTopicLag (by decide)

/-- Claim C5: for every `PartitionLag` produced by the lag computation, for any
committed offsets and watermarks (including negative or skewed values), the `Lag`
field is nonnegative. -/
theorem c5_lag_nonneg {s : KafkaService} {groups : List String}
    {res : List (String × ConsumerGroupLag)}
    (h : getConsumerGroupLags s groups = .ok res)
    {g : String} {cgl : ConsumerGroupLag} (hm : (g, cgl) ∈ res)
    {tl : TopicLag} (ht : tl ∈ cgl.TopicLags)
    {pl : PartitionLag} (hp : pl ∈ tl.PartitionLags) : 0 ≤ pl.Lag := by
  rcases result_topicLag_provenance h hm ht with ⟨_, _, tpo, pwm, _, _, _, _, htl⟩
  rw [htl, computeTopicLag_eq] at hp
  exact partLagsOf_lag_nonneg hp

/-- Witness for claim C5 at the worked scenario: `0 ≤ 20`. -/
theorem c5_witness : 0 ≤ ({ PartitionID := 0, Lag := 20 } : PartitionLag).Lag :=
  @c5_lag_nonneg sampleSvc ["g1"] sampleRes rfl "g1" sampleGroupLag (by decide)
    sampleTopicLag (by decide) { PartitionID := 0, Lag := 20 } (by decide)

/-- Claim C6: for every `TopicLag` produced by the lag computation,
`PartitionsWithOffset ≤ PartitionCount`, and `PartitionCount` is the number of
partitions with a known watermark for that topic. -/
theorem c6_partitionsWithOffset_le {s : KafkaService} {groups : List String}
    {res : List (String × ConsumerGroupLag)}
    (h : getConsumerGroupLags s groups = .ok res)
    {g : String} {cgl : ConsumerGroupLag} (hm : (g, cgl) ∈ res)
    {tl : TopicLag} (ht : tl ∈ cgl.TopicLags)
    {offsets : List (String × OffsetFetchResponse)}
    (hoff : s.ListConsumerGroupOffsetsBulk groups = .ok offsets)
    {tp : List (String × List Int)} {wm : List (String × List (Int × Int))}
    (htp : listTopicPartitions s [] (collectTopics (offsetsByGroupOf offsets)) = .ok tp)
    (hwm : s.HighWaterMarks tp = .ok wm)
    {pwm : List (Int × Int)} (hpwm : alookup tl.Topic wm = some pwm) :
    tl.PartitionsWithOffset ≤ tl.PartitionCount ∧ tl.PartitionCount = pwm.length := by
  rcases result_topicLag_provenance h hm ht with
    ⟨offsets2, wm2, tpo, pwm2, h1, ⟨tp2, h2, h3⟩, h5, h6, htl⟩
  have he1 : offsets = offsets2 := by injection hoff.symm.trans h1
  subst he1
  have he2 : tp = tp2 := by injection htp.symm.trans h2
  subst he2
  have he3 : wm = wm2 := by injection hwm.symm.trans h3
  subst he3
  have htopic : tl.Topic = tpo.1 := by rw [htl, computeTopicLag_eq]
  rw [htopic] at hpwm
  have hp : pwm = pwm2 := by injection hpwm.symm.trans h6
  subst hp
  constructor
  · rw [htl, computeTopicLag_eq]
    exact List.length_filterMap_le _ _
  · rw [htl, computeTopicLag_eq]

/-- Witness for claim C6 at the worked scenario: `2 ≤ 3` and `3` partitions have a
known watermark. -/
theorem c6_witness :
    sampleTopicLag.PartitionsWithOffset ≤ sampleTopicLag.PartitionCount ∧
      sampleTopicLag.PartitionCount = [((0 : Int), (120 : Int)), (1, 50), (2, 30)].length :=
  @c6_partitionsWithOffset_le sampleSvc ["g1"] sampleRes rfl "g1" sampleGroupLag
    (by decide) sampleTopicLag (by decide) [("g1", sampleOffsetsG1)] rfl
    [("topicA", [0, 1, 2])] [("topicA", [(0, 120), (1, 50), (2, 30)])] rfl rfl
    [(0, 120), (1, 50), (2, 30)] rfl

/-- Claim C7: on success the returned mapping has an entry for every requested group
id, carrying that group id; a group whose normalized offset map is empty (no
committed offsets recorded anywhere) gets an empty — not absent — topic-lag list. -/
theorem c7_entry_per_group {s : KafkaService} {groups : List String}
    {offsets : List (String × OffsetFetchResponse)}
    {res : List (String × ConsumerGroupLag)}
    (hoff : s.ListConsumerGroupOffsetsBulk groups = .ok offsets)
    (h : getConsumerGroupLags s groups = .ok res)
    {g : String} (hg : g ∈ groups) :
    ∃ cgl, alookup g res = some cgl ∧ cgl.GroupID = g ∧
      (groupOffsetsIn (offsetsByGroupOf offsets) g = [] → cgl.TopicLags = []) := by
  rcases getConsumerGroupLags_ok_elim h with ⟨offsets2, tp, wm, h1, h2, h3, h4⟩
  have he1 : offsets = offsets2 := by injection hoff.symm.trans h1
  subst he1
  rcases buildGroupLags_lookup_mem wm (offsetsByGroupOf offsets) h4 hg with ⟨tls, h5, h6⟩
  refine ⟨_, h6, rfl, fun hempty => ?_⟩
  rw [hempty, topicLagsFor] at h5
  injection h5 with h5
  exact h5.symm

/-- Witness for claim C7: group `g2` is requested but the offset fetch records
nothing for it, so its entry is present with an empty topic-lag list. -/
theorem c7_witness :
    ∃ cgl, alookup "g2" [("g1", sampleGroupLag),
        ("g2", { GroupID := "g2", TopicLags := [] })] = some cgl ∧
      cgl.GroupID = "g2" ∧
      (groupOffsetsIn (offsetsByGroupOf [("g1", sampleOffsetsG1)]) "g2" = [] →
        cgl.TopicLags = []) :=
  @c7_entry_per_group sampleSvc ["g1", "g2"] [("g1", sampleOffsetsG1)]
    [("g1", sampleGroupLag), ("g2", { GroupID := "g2", TopicLags := [] })]
    rfl rfl "g2" (by decide)

/-- Claim C8 counterexample: group `g1`'s fetched offsets contain topic `t` with an
empty partition-block map, so `g1` has zero committed offsets for `t`; yet the lag
computation emits a `TopicLag` for `t` (with empty `PartitionLags`) instead of
omitting the topic. -/
theorem c8_counterexample :
    alookup "t" (convertOffsets emptyBlockOffsets) = some [] ∧
    getConsumerGroupLags svcEmptyBlocks ["g1"] =
      .ok [("g1", { GroupID := "g1"
                    TopicLags := [{ Topic := "t"
                                    SummedLag := 0
                                    PartitionCount := 1
                                    PartitionsWithOffset := 0
                                    PartitionLags := [] }] })] :=
  ⟨rfl, rfl⟩

/-- Claim C8 (amended): every `TopicLag` of a successful run corresponds to a topic
keyed in the group's normalized offset map (possibly with an empty partition map);
equivalently, a topic with no entry at all in the group's offset map is absent from
the group's topic lags. -/
theorem c8_topic_present_in_offsets {s : KafkaService} {groups : List String}
    {res : List (String × ConsumerGroupLag)}
    (h : getConsumerGroupLags s groups = .ok res)
    {offsets : List (String × OffsetFetchResponse)}
    (hoff : s.ListConsumerGroupOffsetsBulk groups = .ok offsets)
    {g : String} {cgl : ConsumerGroupLag} (hm : (g, cgl) ∈ res)
    {tl : TopicLag} (ht : tl ∈ cgl.TopicLags) :
    ∃ po, (tl.Topic, po) ∈ groupOffsetsIn (offsetsByGroupOf offsets) g := by
  rcases result_topicLag_provenance h hm ht with
    ⟨offsets2, wm, tpo, pwm, h1, _, h5, _, htl⟩
  have he1 : offsets = offsets2 := by injection hoff.symm.trans h1
  subst he1
  refine ⟨tpo.2, ?_⟩
  have htopic : tl.Topic = tpo.1 := by rw [htl, computeTopicLag_eq]
  rw [htopic]
  exact h5

/-- Witness for the amended claim C8 at the worked scenario: the one `TopicLag` is
for `topicA`, which the group's offset map keys. -/
theorem c8_witness :
    ∃ po, (sampleTopicLag.Topic, po) ∈
      groupOffsetsIn (offsetsByGroupOf [("g1", sampleOffsetsG1)]) "g1" :=
  @c8_topic_present_in_offsets sampleSvc ["g1"] sampleRes rfl [("g1", sampleOffsetsG1)]
    rfl "g1" sampleGroupLag (by decide) sampleTopicLag (by decide)

/-- Claim C9 counterexample: groups `g1` and `g2` both hold committed offsets on
topic `t`; the collection of topics passed to the partition-listing collaborator is
`["t", "t"]` — the same topic twice, not deduplicated — while the run still
succeeds. -/
theorem c9_counterexample :
    partitionListCalls svcSharedTopic ["g1", "g2"] = ["t", "t"] ∧
    ¬ (partitionListCalls svcSharedTopic ["g1", "g2"]).Nodup ∧
    (∃ r, getConsumerGroupLags svcSharedTopic ["g1", "g2"] = .ok r) :=
  ⟨rfl, by decide, ⟨_, rfl⟩⟩

/-- Claim C9 (amended): the partition-listing collaborator is invoked once per
(group, topic) incidence — on a successful listing pass the invocation sequence is
exactly the concatenation of every group's topic keys, undeduplicated — while the
`topicPartitions` mapping then passed to the watermark fetch keys each topic at most
once. -/
theorem c9_calls_per_incidence (s : KafkaService) (groups : List String)
    (offsets : List (String × OffsetFetchResponse))
    (hoff : s.ListConsumerGroupOffsetsBulk groups = .ok offsets)
    (tp : List (String × List Int))
    (htp : listTopicPartitions s [] (collectTopics (offsetsByGroupOf offsets)) = .ok tp) :
    partitionListCalls s groups = collectTopics (offsetsByGroupOf offsets) ∧
    (tp.map Prod.fst).Nodup := by
  constructor
  · simp only [partitionListCalls, hoff]
    have hsnd := listTopicPartitionsCalls_snd s [] [] (collectTopics (offsetsByGroupOf offsets))
    rw [htp] at hsnd
    simpa using listTopicPartitionsCalls_fst_ok s [] [] hsnd
  · exact listTopicPartitions_keys_nodup s (by simp) htp

/-- Witness for the amended claim C9 at the shared-topic service. -/
theorem c9_witness :
    partitionListCalls svcSharedTopic ["g1", "g2"] =
      collectTopics (offsetsByGroupOf
        [("g1", { Blocks := [("t", [(0, { Offset := 1 })])] }),
         ("g2", { Blocks := [("t", [(0, { Offset := 2 })])] })]) ∧
    ([("t", [(0 : Int)])].map Prod.fst).Nodup :=
  c9_calls_per_incidence svcSharedTopic ["g1", "g2"]
    [("g1", { Blocks := [("t", [(0, { Offset := 1 })])] }),
     ("g2", { Blocks := [("t", [(0, { Offset := 2 })])] })] rfl
    [("t", [0])] rfl

/-- Claim C10: a fetched committed-offset block whose offset is the `-1` sentinel is
passed through `convertOffsets` unfiltered, and the aggregator treats it as a real
committed offset: the partition is appended to the partition lags with lag `w + 1`
(clamped to 0 if `w + 1 < 0`) rather than skipped, and `PartitionsWithOffset` counts
exactly the appended partitions. -/
theorem c10_sentinel_passthrough :
    (∀ (offsets : OffsetFetchResponse) (topic : String)
        (blocks : List (Int × OffsetFetchResponseBlock)) (pID : Int)
        (block : OffsetFetchResponseBlock),
      (topic, blocks) ∈ offsets.Blocks → (pID, block) ∈ blocks → block.Offset = -1 →
      ∃ po, (topic, po) ∈ convertOffsets offsets ∧ (pID, (-1 : Int)) ∈ po) ∧
    (∀ (topic : String) (pOffsets : partitionOffsets) (pwm : List (Int × Int))
        (p w : Int),
      (p, w) ∈ pwm → alookup p pOffsets = some (-1) →
      ({ PartitionID := p, Lag := if w + 1 < 0 then 0 else w + 1 } : PartitionLag) ∈
        (computeTopicLag topic pOffsets pwm).PartitionLags) ∧
    (∀ (topic : String) (pOffsets : partitionOffsets) (pwm : List (Int × Int)),
      (computeTopicLag topic pOffsets pwm).PartitionsWithOffset =
        (computeTopicLag topic pOffsets pwm).PartitionLags.length) := by
  refine ⟨?_, ?_, ?_⟩
  · intro offsets topic blocks pID block hmem hb hsent
    refine ⟨blocks.map (fun pb => (pb.1, pb.2.Offset)), ?_, ?_⟩
    · rw [convertOffsets]
      exact List.mem_map_of_mem _ hmem
    · rw [← hsent]
      exact List.mem_map_of_mem _ hb
  · intro topic pOffsets pwm p w hw ho
    rw [computeTopicLag_eq]
    have hmem := mem_partLagsOf hw ho
    have heq : w - (-1 : Int) = w + 1 := sub_neg_eq_add w 1
    rw [heq] at hmem
    exact hmem
  · intro topic pOffsets pwm
    rw [computeTopicLag_eq]

/-- Witness for claim C10: a block with offset `-1` on partition 0 survives
normalization, and with watermark 5 the partition is reported with lag 6. -/
theorem c10_witness :
    (∃ po, ("t", po) ∈ convertOffsets sentinelOffsets ∧ ((0 : Int), (-1 : Int)) ∈ po) ∧
    ({ PartitionID := 0, Lag := if (5 : Int) + 1 < 0 then 0 else 5 + 1 } :
        PartitionLag) ∈ (computeTopicLag "t" [(0, -1)] [(0, 5)]).PartitionLags :=
  ⟨c10_sentinel_passthrough.1 sentinelOffsets "t" [(0, { Offset := -1 })] 0
      { Offset := -1 } (by decide) (by decide) rfl,
   c10_sentinel_passthrough.2.1 "t" [(0, -1)] [(0, 5)] 0 5 (by decide) rfl⟩
